import Mathlib

/-!
Shallow embedding of the memote `history` CLI command
(src/memote/suite/cli/runner.py) and of the result-store interfaces it
consumes.  The working tree is modelled as a checked-out ref, the result
store as an association list keyed by full commit hash, and the side
effects of the command (checkouts, store relocation, child processes,
store writes) as an explicit event trace.  The components that live
outside the given source file (the result managers and the history index)
are modelled from the specification, as noted on each definition.
-/

/-- A git commit as the command observes it: full hexadecimal identifier
(`cmt.hexsha`), the set of files changed by the commit (`cmt.stats.files`)
and the files present in the tree of the commit (`cmt.tree`). -/
structure Commit where
  hexsha : String
  statsFiles : List String
  treeFiles : List String
deriving DecidableEq

/-- Character-list test: the first list is an initial segment of the
second.  Used to model how git resolves shortened commit identifiers. -/
def chPre : List Char → List Char → Bool
  | [], _ => true
  | _ :: _, [] => false
  | a :: as, b :: bs => a == b && chPre as bs

/-- The repository as the command observes it: the commit log of the
branch under test (ancestor first) and the local branch names. -/
structure Repo where
  commits : List Commit
  branches : List String
deriving DecidableEq

/-- GitPython repo.commit(ident): resolve a possibly shortened commit
identifier against the log.  The value none models the exception raised
for an unknown or ambiguous revision. -/
def Repo.resolve (repo : Repo) (ident : String) : Option Commit :=
  match repo.commits.filter (fun c => chPre ident.data c.hexsha.data) with
  | [c] => some c
  | _ => none

/-- A checked-out ref of the working tree. -/
inductive Ref where
  | branch (name : String)
  | detached (hexsha : String)
deriving DecidableEq

/-- GitPython repo.active_branch: the current branch name, or none when
HEAD is detached (in which case the attribute access raises TypeError). -/
def activeBranch : Ref → Option String
  | .branch b => some b
  | .detached _ => none

/-- Observable side effects of one invocation, in program order. -/
inductive Event where
  | checkout (r : Ref)
  | relocateStore
  | spawn (hexsha : String)
  | storeWrite (hexsha : String)
  | join (hexsha : String)
  | publish
deriving DecidableEq

/-- The ways the command terminates other than normally.  badParameter
models click.BadParameter (exit code 2), invalidGitRepository the
sys.exit(1) path, typeError the GitPython exception on a detached HEAD,
missingDeploymentBranch the lookup repo.heads on an absent branch,
badName an unresolvable commit identifier, and keyError the uncaught
lookup cmt.tree on a commit whose tree lacks the model file. -/
inductive HistoryError where
  | badParameter (param : String)
  | invalidGitRepository
  | typeError
  | missingDeploymentBranch
  | badName (ident : String)
  | keyError (hexsha : String)
deriving DecidableEq

/-- The result store: association list from full commit hash to the
stored result record (abstracted to a number), newest entry first. -/
abbrev Store := List (String × Nat)

/-- Modelled from the spec: manager.store(result, commit) of the result
managers (memote.suite.results, not in the given sources) persists the
record under the full commit hash, replacing any prior record for that
commit (newest entry shadows older ones on lookup). -/
def storeUpdate (st : Store) (hexsha : String) (result : Nat) : Store :=
  (hexsha, result) :: st

/-- The commit hashes that have a stored record. -/
def storeKeys (st : Store) : List String := st.map Prod.fst

/-- Modelled from the spec: HistoryManager.load_history builds the
history index once by loading the existing records of the store. -/
def loadHistoryIndex (st : Store) : List String := storeKeys st

/-- Modelled from the spec: membership test of the history index,
answering whether a commit already has a stored result. -/
def historyContains : List String → String → Bool
  | [], _ => false
  | k :: rest, h => k == h || historyContains rest h

/-- Modelled from the spec: HistoryManager.iter_commits returns the full
ordered, ancestor-first commit log of the branch under test. -/
def iterCommits (repo : Repo) : List String := repo.commits.map Commit.hexsha

/-- Scan for a URL scheme separator. -/
def hasUrlSep : List Char → Bool
  | ':' :: '/' :: '/' :: _ => true
  | _ :: rest => hasUrlSep rest
  | [] => false

/-- Modelled from the spec: a location string counts as an rfc1738 style
connection URL when it carries a scheme separator. -/
def isDbUrl (s : String) : Bool := hasUrlSep s.data

/-- The failure modes of opening a location as a database connection that
the spec names: a malformed URL or driver mismatch (sqlalchemy
ArgumentError, of which NoSuchModuleError is a subclass) and the
AttributeError the source also guards against. -/
inductive EngineError where
  | argumentError
  | attributeError
deriving DecidableEq

/-- Modelled from the spec: sqlalchemy create_engine(location) succeeds
exactly when the location parses as a connection URL and otherwise raises
ArgumentError. -/
def createEngine (location : String) : Except EngineError Unit :=
  if isDbUrl location then .ok () else .error .argumentError

/-- The two result-store backends. -/
inductive Backend where
  | sql
  | file
deriving DecidableEq

/-- Lines 271-292: construct an SQLResultManager when create_engine
succeeds and fall back to a RepoResultManager when it raises
AttributeError or ArgumentError. -/
def selectBackend (location : String) : Backend :=
  match createEngine location with
  | .ok _ => .sql
  | .error .argumentError => .file
  | .error .attributeError => .file

/-- The outcome of the per-commit decisions of the loop body. -/
inductive StepResult where
  | skippedUntouched
  | skippedExisting
  | missingBlob
  | evaluated
deriving DecidableEq

/-- Lines 301-314: the per-commit decisions, in source order: skip when
the model was not modified by the commit; skip when a result exists and
rewriting was not requested; otherwise look the model up in the tree of
the commit, which either yields the blob to evaluate or raises KeyError. -/
def commitAction (model : String) (index : List String) (rewriteFlag : Bool)
    (cmt : Commit) : StepResult :=
  if cmt.statsFiles.contains model then
    if historyContains index cmt.hexsha && !rewriteFlag then .skippedExisting
    else if cmt.treeFiles.contains model then .evaluated
    else .missingBlob
  else .skippedUntouched

/-- The mutable state of one invocation: the checked-out ref, the result
store contents and the trace of side effects so far. -/
structure HistoryState where
  ref : Ref
  store : Store
  trace : List Event
deriving DecidableEq

/-- The events of one isolated evaluation: process start, the store write
performed inside the child, and the join of the parent. -/
def blockFor (hexsha : String) : List Event :=
  [.spawn hexsha, .storeWrite hexsha, .join hexsha]

/-- The concatenated evaluation events of a list of commits. -/
def blocksFor : List String → List Event
  | [] => []
  | h :: rest => blockFor h ++ blocksFor rest

/-- Lines 297-320: the per-commit loop.  Each identifier is resolved to
its full hash; skips leave the state untouched; a model file missing from
the tree of a non-skipped commit raises KeyError and aborts the loop; an
evaluated commit runs parse, solver setup, test suite and store write in
a child process that the parent joins before the next iteration. -/
def runLoop (model : String) (repo : Repo) (index : List String)
    (rewriteFlag : Bool) (result : String → Nat) :
    List String → HistoryState → HistoryState × Option HistoryError
  | [], s => (s, none)
  | ident :: rest, s =>
    match repo.resolve ident with
    | none => (s, some (.badName ident))
    | some cmt =>
      match commitAction model index rewriteFlag cmt with
      | .skippedUntouched => runLoop model repo index rewriteFlag result rest s
      | .skippedExisting => runLoop model repo index rewriteFlag result rest s
      | .missingBlob => (s, some (.keyError cmt.hexsha))
      | .evaluated =>
          runLoop model repo index rewriteFlag result rest
            ⟨s.ref, storeUpdate s.store cmt.hexsha (result cmt.hexsha),
             s.trace ++ blockFor cmt.hexsha⟩

/-- The command-line inputs of the history command. -/
structure HistoryInput where
  model : Option String
  location : Option String
  rewriteFlag : Bool
  deployment : String
  commits : List String

/-- The environment of one invocation: the repository, when the command
runs inside one, and the (deterministic) result record the test suite
produces for a commit. -/
structure Env where
  repo : Option Repo
  result : String → Nat

/-- Lines 276-292: the store relocation touches the filesystem for the
file backend and for a local sqlite database; a networked database needs
no relocation. -/
def relocateEvents (location : String) : List Event :=
  if selectBackend location = .file || chPre "sqlite".data location.data then
    [.relocateStore]
  else []

/-- The state right after the deployment checkout and store relocation. -/
def startState (deployment location : String) (store0 : Store) : HistoryState :=
  ⟨.branch deployment, store0,
   Event.checkout (.branch deployment) :: relocateEvents location⟩

/-- Lines 268-333: the walk after the preconditions passed.  Check out
the deployment branch, relocate the store, build the history index,
determine the candidate commits, run the loop, and on success publish the
store back (checkout, copy back, stage, commit) and restore the previous
branch.  A loop error propagates and leaves the tree where the loop left
it. -/
def walk (model location : String) (repo : Repo) (previous : String)
    (inp : HistoryInput) (result : String → Nat) (ref0 : Ref)
    (store0 : Store) : HistoryState × Option HistoryError :=
  if repo.branches.contains inp.deployment then
    match runLoop model repo (loadHistoryIndex store0) inp.rewriteFlag result
        (if inp.commits.isEmpty then iterCommits repo else inp.commits)
        (startState inp.deployment location store0) with
    | (s2, some e) => (s2, some e)
    | (s2, none) =>
        (⟨.branch previous, s2.store,
          s2.trace ++ [Event.checkout (.branch inp.deployment), Event.publish,
                       Event.checkout (.branch previous)]⟩, none)
  else (⟨ref0, store0, []⟩, some .missingDeploymentBranch)

/-- Lines 252-333: the history command.  The preconditions fail in source
order (no model configured, no location configured, not inside a git
repository, detached HEAD) before any side effect; then the walk runs. -/
def runHistory (inp : HistoryInput) (env : Env) (ref0 : Ref)
    (store0 : Store) : HistoryState × Option HistoryError :=
  match inp.model with
  | none => (⟨ref0, store0, []⟩, some (.badParameter "model"))
  | some model =>
    match inp.location with
    | none => (⟨ref0, store0, []⟩, some (.badParameter "location"))
    | some location =>
      match env.repo with
      | none => (⟨ref0, store0, []⟩, some .invalidGitRepository)
      | some repo =>
        match activeBranch ref0 with
        | none => (⟨ref0, store0, []⟩, some .typeError)
        | some previous =>
            walk model location repo previous inp env.result ref0 store0

/-- Events of an isolated evaluation. -/
def isEval : Event → Bool
  | .spawn _ => true
  | .storeWrite _ => true
  | .join _ => true
  | _ => false

/-- A trace containing no evaluation events. -/
def evalFree (t : List Event) : Bool := t.all (fun e => !isEval e)

/-- Each child process is spawned, performs its store write, and is
joined before anything else happens: evaluation intervals never overlap
and never interleave with other effects. -/
def noOverlap : List Event → Bool
  | [] => true
  | .spawn c :: .storeWrite c' :: .join c'' :: rest =>
      c == c' && c == c'' && noOverlap rest
  | .spawn _ :: _ => false
  | .storeWrite _ :: _ => false
  | .join _ :: _ => false
  | _ :: rest => noOverlap rest

/-- Errors that can only occur before the first checkout. -/
def preWalkError : Option HistoryError → Bool
  | some (.badParameter _) => true
  | some .invalidGitRepository => true
  | some .typeError => true
  | some .missingDeploymentBranch => true
  | _ => false

/-- A commit that modifies the model file and carries it in its tree. -/
def demoCommit : Commit := ⟨"aaaa1111", ["model.xml"], ["model.xml"]⟩

/-- A one-commit repository with a deployment branch. -/
def demoRepo : Repo := ⟨[demoCommit], ["master", "gh-pages"]⟩

/-- A fully configured invocation with the default flags. -/
def demoInput : HistoryInput :=
  ⟨some "model.xml", some "./results", false, "gh-pages", []⟩

/-- An environment for the one-commit repository. -/
def demoEnv : Env := ⟨some demoRepo, fun _ => 7⟩

/-- A commit that deletes the model: the changed-file set contains the
model path but the tree of the commit does not. -/
def gapCommit : Commit := ⟨"aaaa1111", ["model.xml"], []⟩

/-- A model-touching commit after the deleting one. -/
def tailCommit : Commit := ⟨"bbbb2222", ["model.xml"], ["model.xml"]⟩

/-- A repository whose first candidate commit deletes the model. -/
def gapRepo : Repo := ⟨[gapCommit, tailCommit], ["master", "gh-pages"]⟩

/-- An environment for the model-deleting repository. -/
def gapEnv : Env := ⟨some gapRepo, fun _ => 7⟩

/-- A commit that does not modify the model file. -/
def quietCommit : Commit := ⟨"cccc3333", [], ["model.xml"]⟩

/-- A repository whose only commit leaves the model untouched. -/
def quietRepo : Repo := ⟨[quietCommit], ["master", "gh-pages"]⟩

/-- An invocation missing the model path. -/
def noModelInput : HistoryInput :=
  ⟨none, some "./results", false, "gh-pages", []⟩

/-- A two-commit repository with full-length, prefix-free hashes. -/
def twinRepo : Repo := ⟨[demoCommit, tailCommit], ["master", "gh-pages"]⟩

/-- Membership in the history index is list membership. -/
theorem historyContains_iff (idx : List String) (h : String) :
    historyContains idx h = true ↔ h ∈ idx := by
  induction idx with
  | nil => simp [historyContains]
  | cons k rest ih =>
    simp only [historyContains, Bool.or_eq_true, beq_iff_eq, ih,
      List.mem_cons]
    constructor
    · rintro (rfl | hm)
      · exact Or.inl rfl
      · exact Or.inr hm
    · rintro (rfl | hm)
      · exact Or.inl rfl
      · exact Or.inr hm

/-- Every character list is an initial segment of itself. -/
theorem chPre_refl (l : List Char) : chPre l l = true := by
  induction l with
  | nil => rfl
  | cons a as ih => simp [chPre, ih]

/-- A successful resolution pins the matching commits down to one. -/
theorem resolve_some_filter (repo : Repo) (p : String) (cmt : Commit)
    (h : repo.resolve p = some cmt) :
    repo.commits.filter (fun c => chPre p.data c.hexsha.data) = [cmt] := by
  unfold Repo.resolve at h
  split at h
  · injection h with h
    subst h
    assumption
  · exact absurd h (by simp)

/-- A unique match resolves. -/
theorem resolve_of_filter (repo : Repo) (p : String) (cmt : Commit)
    (h : repo.commits.filter (fun c => chPre p.data c.hexsha.data) = [cmt]) :
    repo.resolve p = some cmt := by
  unfold Repo.resolve
  rw [h]

/-- The commit is skipped when the model was untouched. -/
theorem commitAction_eq_untouched (model : String) (index : List String)
    (rwf : Bool) (cmt : Commit)
    (h : cmt.statsFiles.contains model = false) :
    commitAction model index rwf cmt = .skippedUntouched := by
  unfold commitAction
  rw [h]
  rfl

/-- The commit is skipped when a record exists and rewrite is off. -/
theorem commitAction_eq_existing (model : String) (index : List String)
    (rwf : Bool) (cmt : Commit)
    (h2 : cmt.statsFiles.contains model = true)
    (h3 : (historyContains index cmt.hexsha && !rwf) = true) :
    commitAction model index rwf cmt = .skippedExisting := by
  unfold commitAction
  rw [h2, h3]
  rfl

/-- The commit is evaluated when touched, not skipped, and present. -/
theorem commitAction_eq_evaluated (model : String) (index : List String)
    (rwf : Bool) (cmt : Commit)
    (h2 : cmt.statsFiles.contains model = true)
    (h3 : (historyContains index cmt.hexsha && !rwf) = false)
    (h4 : cmt.treeFiles.contains model = true) :
    commitAction model index rwf cmt = .evaluated := by
  unfold commitAction
  rw [h2, h3, h4]
  rfl

/-- The tree lookup fails when touched, not skipped, and absent. -/
theorem commitAction_eq_missing (model : String) (index : List String)
    (rwf : Bool) (cmt : Commit)
    (h2 : cmt.statsFiles.contains model = true)
    (h3 : (historyContains index cmt.hexsha && !rwf) = false)
    (h4 : cmt.treeFiles.contains model = false) :
    commitAction model index rwf cmt = .missingBlob := by
  unfold commitAction
  rw [h2, h3, h4]
  rfl

/-- A loop step on an unresolvable identifier aborts. -/
theorem runLoop_cons_none (model : String) (repo : Repo)
    (index : List String) (rwf : Bool) (result : String → Nat)
    (ident : String) (rest : List String) (s : HistoryState)
    (h1 : repo.resolve ident = none) :
    runLoop model repo index rwf result (ident :: rest) s
      = (s, some (.badName ident)) := by
  simp [runLoop, h1]

/-- A loop step on an untouched commit continues unchanged. -/
theorem runLoop_cons_untouched (model : String) (repo : Repo)
    (index : List String) (rwf : Bool) (result : String → Nat)
    (ident : String) (rest : List String) (s : HistoryState) (cmt : Commit)
    (h1 : repo.resolve ident = some cmt)
    (h2 : commitAction model index rwf cmt = .skippedUntouched) :
    runLoop model repo index rwf result (ident :: rest) s
      = runLoop model repo index rwf result rest s := by
  simp [runLoop, h1, h2]

/-- A loop step on an already recorded commit continues unchanged. -/
theorem runLoop_cons_existing (model : String) (repo : Repo)
    (index : List String) (rwf : Bool) (result : String → Nat)
    (ident : String) (rest : List String) (s : HistoryState) (cmt : Commit)
    (h1 : repo.resolve ident = some cmt)
    (h2 : commitAction model index rwf cmt = .skippedExisting) :
    runLoop model repo index rwf result (ident :: rest) s
      = runLoop model repo index rwf result rest s := by
  simp [runLoop, h1, h2]

/-- A loop step on a commit whose tree lacks the model aborts. -/
theorem runLoop_cons_missing (model : String) (repo : Repo)
    (index : List String) (rwf : Bool) (result : String → Nat)
    (ident : String) (rest : List String) (s : HistoryState) (cmt : Commit)
    (h1 : repo.resolve ident = some cmt)
    (h2 : commitAction model index rwf cmt = .missingBlob) :
    runLoop model repo index rwf result (ident :: rest) s
      = (s, some (.keyError cmt.hexsha)) := by
  simp [runLoop, h1, h2]

/-- A loop step on an evaluated commit spawns, stores and joins. -/
theorem runLoop_cons_evaluated (model : String) (repo : Repo)
    (index : List String) (rwf : Bool) (result : String → Nat)
    (ident : String) (rest : List String) (s : HistoryState) (cmt : Commit)
    (h1 : repo.resolve ident = some cmt)
    (h2 : commitAction model index rwf cmt = .evaluated) :
    runLoop model repo index rwf result (ident :: rest) s
      = runLoop model repo index rwf result rest
          ⟨s.ref, storeUpdate s.store cmt.hexsha (result cmt.hexsha),
           s.trace ++ blockFor cmt.hexsha⟩ := by
  simp [runLoop, h1, h2]

/-- C1 counterexample: with rewrite not requested and an empty history
index, a model-touching commit is still evaluated, so a commit is not
evaluated exactly when rewrite is true and a prior record exists. -/
theorem commitAction_eval_without_rewrite :
    commitAction "model.xml" [] false demoCommit = .evaluated ∧
    ¬(false = true ∧ historyContains [] demoCommit.hexsha = true) := by
  decide

/-- C1 (amended): the per-commit loop skips a commit at the
existing-result check exactly when the history index already has a record
for it and rewrite was not requested; a model-touching commit proceeds to
snapshot materialization exactly when rewrite is true or no prior record
exists. -/
theorem commitAction_eval_iff (model : String) (index : List String)
    (rwf : Bool) (cmt : Commit) :
    (commitAction model index rwf cmt = .skippedExisting ↔
      cmt.statsFiles.contains model = true ∧
      historyContains index cmt.hexsha = true ∧ rwf = false) ∧
    ((commitAction model index rwf cmt = .evaluated ∨
      commitAction model index rwf cmt = .missingBlob) ↔
      cmt.statsFiles.contains model = true ∧
      (rwf = true ∨ historyContains index cmt.hexsha = false)) := by
  unfold commitAction
  cases h1 : cmt.statsFiles.contains model <;>
    cases h2 : historyContains index cmt.hexsha <;>
      cases h3 : cmt.treeFiles.contains model <;>
        cases rwf <;> simp

/-- C5: backend selection opens the location as a database connection
and on failure (malformed URL or driver mismatch, the failures the
except clause of the source catches) falls back to the versioned-file
backend; in particular a location that is not a connection URL always
yields the file backend. -/
theorem selectBackend_fallback (location : String) :
    (∀ e : EngineError, createEngine location = .error e →
      selectBackend location = .file) ∧
    (isDbUrl location = false → selectBackend location = .file) := by
  constructor
  · intro e he
    unfold selectBackend
    rw [he]
    cases e <;> rfl
  · intro h
    simp [selectBackend, createEngine, h]

/-- Witness for C5 at a plain directory location. -/
theorem selectBackend_fallback_app :
    isDbUrl "./results" = false ∧ selectBackend "./results" = Backend.file :=
  ⟨by decide, (selectBackend_fallback "./results").2 (by decide)⟩

/-- C7: a candidate commit whose changed-file set does not contain the
model path is skipped outright: the loop continues on the untouched
state, so no result record is created and no child process is spawned
for it. -/
theorem runLoop_untouched_skip (model : String) (repo : Repo)
    (index : List String) (rwf : Bool) (result : String → Nat)
    (ident : String) (rest : List String) (s : HistoryState) (cmt : Commit)
    (h1 : repo.resolve ident = some cmt)
    (h2 : cmt.statsFiles.contains model = false) :
    runLoop model repo index rwf result (ident :: rest) s
      = runLoop model repo index rwf result rest s :=
  runLoop_cons_untouched model repo index rwf result ident rest s cmt h1
    (commitAction_eq_untouched model index rwf cmt h2)

/-- Witness for C7 at a concrete untouched commit. -/
theorem runLoop_untouched_skip_app :
    runLoop "model.xml" quietRepo [] false (fun _ => 7) ["cccc3333"]
        ⟨Ref.branch "gh-pages", [], []⟩
      = runLoop "model.xml" quietRepo [] false (fun _ => 7) []
        ⟨Ref.branch "gh-pages", [], []⟩ :=
  runLoop_untouched_skip "model.xml" quietRepo [] false (fun _ => 7)
    "cccc3333" [] ⟨Ref.branch "gh-pages", [], []⟩ quietCommit
    (by decide) (by decide)

/-- C3 (amended): when the changed-file set of a non-skipped commit
contains the model path but its tree does not, the tree lookup raises an
uncaught KeyError: the loop aborts with that error at the untouched
state instead of skipping the commit and continuing. -/
theorem runLoop_missing_blob_fatal (model : String) (repo : Repo)
    (index : List String) (rwf : Bool) (result : String → Nat)
    (ident : String) (rest : List String) (s : HistoryState) (cmt : Commit)
    (h1 : repo.resolve ident = some cmt)
    (h2 : cmt.statsFiles.contains model = true)
    (h3 : (historyContains index cmt.hexsha && !rwf) = false)
    (h4 : cmt.treeFiles.contains model = false) :
    runLoop model repo index rwf result (ident :: rest) s
      = (s, some (.keyError cmt.hexsha)) :=
  runLoop_cons_missing model repo index rwf result ident rest s cmt h1
    (commitAction_eq_missing model index rwf cmt h2 h3 h4)

/-- Witness for C3 (amended) at a concrete model-deleting commit. -/
theorem runLoop_missing_blob_fatal_app :
    runLoop "model.xml" gapRepo [] false (fun _ => 7)
        ["aaaa1111", "bbbb2222"] ⟨Ref.branch "gh-pages", [], []⟩
      = (⟨Ref.branch "gh-pages", [], []⟩,
         some (HistoryError.keyError "aaaa1111")) :=
  runLoop_missing_blob_fatal "model.xml" gapRepo [] false (fun _ => 7)
    "aaaa1111" ["bbbb2222"] ⟨Ref.branch "gh-pages", [], []⟩ gapCommit
    (by decide) (by decide) (by decide) (by decide)

/-- C3 counterexample: on the model-deleting repository the whole command
terminates with the KeyError instead of skipping that commit, and the
later model-touching commit is never evaluated. -/
theorem runHistory_missing_blob_aborts_walk :
    (runHistory demoInput gapEnv (Ref.branch "master") []).2
        = some (HistoryError.keyError "aaaa1111") ∧
    (runHistory demoInput gapEnv (Ref.branch "master") []).1.trace.contains
        (Event.spawn "bbbb2222") = false := by
  decide

/-- C4: with no model path, no location, or no git repository, the
command terminates with a nonzero status before any side effect: the
working tree ref, the store, and the event trace are untouched. -/
theorem runHistory_precondition_fail_fast (inp : HistoryInput) (env : Env)
    (ref0 : Ref) (store0 : Store)
    (h : inp.model = none ∨ inp.location = none ∨ env.repo = none) :
    (runHistory inp env ref0 store0).1 = ⟨ref0, store0, []⟩ ∧
    ((runHistory inp env ref0 store0).2).isSome = true := by
  rcases h with h | h | h
  · simp [runHistory, h]
  · cases hm : inp.model <;> simp [runHistory, hm, h]
  · cases hm : inp.model <;> cases hl : inp.location <;>
      simp [runHistory, hm, hl, h]

/-- Witness for C4 at an invocation missing the model path. -/
theorem runHistory_precondition_fail_fast_app :
    (runHistory noModelInput demoEnv (Ref.branch "master") []).1
        = ⟨Ref.branch "master", [], []⟩ ∧
    ((runHistory noModelInput demoEnv (Ref.branch "master") []).2).isSome
        = true :=
  runHistory_precondition_fail_fast noModelInput demoEnv
    (Ref.branch "master") [] (Or.inl rfl)

/-- C10: inside a git repository with a detached HEAD the command fails
with the TypeError raised by the active-branch lookup before any
checkout, relocation, or store mutation: the state is returned
untouched with an empty trace. -/
theorem runHistory_detached_head_fail_fast (inp : HistoryInput) (env : Env)
    (ref0 : Ref) (store0 : Store) (m loc : String) (repo : Repo)
    (h1 : inp.model = some m) (h2 : inp.location = some loc)
    (h3 : env.repo = some repo) (h4 : activeBranch ref0 = none) :
    runHistory inp env ref0 store0
      = (⟨ref0, store0, []⟩, some .typeError) := by
  simp [runHistory, h1, h2, h3, h4]

/-- Witness for C10 at a concrete detached HEAD. -/
theorem runHistory_detached_head_fail_fast_app :
    runHistory demoInput demoEnv (Ref.detached "aaaa1111") []
      = (⟨Ref.detached "aaaa1111", [], []⟩, some HistoryError.typeError) :=
  runHistory_detached_head_fail_fast demoInput demoEnv
    (Ref.detached "aaaa1111") [] "model.xml" "./results" demoRepo
    rfl rfl rfl rfl

/-- A trace of non-evaluation events never overlaps. -/
theorem noOverlap_evalFree (t : List Event) (h : evalFree t = true) :
    noOverlap t = true := by
  induction t with
  | nil => rfl
  | cons e rest ih =>
    cases e with
    | spawn c => simp [evalFree, isEval] at h
    | storeWrite c => simp [evalFree, isEval] at h
    | join c => simp [evalFree, isEval] at h
    | checkout r =>
      simp only [evalFree, List.all_cons, isEval, Bool.not_false,
        Bool.true_and] at h
      simpa [noOverlap] using ih h
    | relocateStore =>
      simp only [evalFree, List.all_cons, isEval, Bool.not_false,
        Bool.true_and] at h
      simpa [noOverlap] using ih h
    | publish =>
      simp only [evalFree, List.all_cons, isEval, Bool.not_false,
        Bool.true_and] at h
      simpa [noOverlap] using ih h

/-- A non-evaluation head segment does not affect overlap. -/
theorem noOverlap_append_left (pre x : List Event)
    (h : evalFree pre = true) :
    noOverlap (pre ++ x) = noOverlap x := by
  induction pre with
  | nil => rfl
  | cons e rest ih =>
    cases e with
    | spawn c => simp [evalFree, isEval] at h
    | storeWrite c => simp [evalFree, isEval] at h
    | join c => simp [evalFree, isEval] at h
    | checkout r =>
      simp only [evalFree, List.all_cons, isEval, Bool.not_false,
        Bool.true_and] at h
      simpa [noOverlap] using ih h
    | relocateStore =>
      simp only [evalFree, List.all_cons, isEval, Bool.not_false,
        Bool.true_and] at h
      simpa [noOverlap] using ih h
    | publish =>
      simp only [evalFree, List.all_cons, isEval, Bool.not_false,
        Bool.true_and] at h
      simpa [noOverlap] using ih h

/-- Evaluation blocks followed by a non-evaluation tail never overlap. -/
theorem noOverlap_blocks_append (hs : List String) (post : List Event)
    (h : evalFree post = true) :
    noOverlap (blocksFor hs ++ post) = true := by
  induction hs with
  | nil => simpa [blocksFor] using noOverlap_evalFree post h
  | cons c rest ih =>
    simpa [blocksFor, blockFor, noOverlap, List.append_assoc] using ih

/-- Evaluation blocks alone never overlap. -/
theorem noOverlap_blocks (hs : List String) :
    noOverlap (blocksFor hs) = true := by
  simpa using noOverlap_blocks_append hs [] rfl

/-- The loop only ever appends whole evaluation blocks to the trace. -/
theorem runLoop_trace_shape (model : String) (repo : Repo)
    (index : List String) (rwf : Bool) (result : String → Nat) :
    ∀ (L : List String) (s : HistoryState), ∃ hs : List String,
      (runLoop model repo index rwf result L s).1.trace
        = s.trace ++ blocksFor hs := by
  intro L
  induction L with
  | nil => exact fun s => ⟨[], by simp [runLoop, blocksFor]⟩
  | cons ident rest ih =>
    intro s
    cases h1 : repo.resolve ident with
    | none =>
      refine ⟨[], ?_⟩
      rw [runLoop_cons_none model repo index rwf result ident rest s h1]
      simp [blocksFor]
    | some cmt =>
      cases h2 : commitAction model index rwf cmt with
      | skippedUntouched =>
        rw [runLoop_cons_untouched model repo index rwf result ident rest s
          cmt h1 h2]
        exact ih s
      | skippedExisting =>
        rw [runLoop_cons_existing model repo index rwf result ident rest s
          cmt h1 h2]
        exact ih s
      | missingBlob =>
        refine ⟨[], ?_⟩
        rw [runLoop_cons_missing model repo index rwf result ident rest s
          cmt h1 h2]
        simp [blocksFor]
      | evaluated =>
        rw [runLoop_cons_evaluated model repo index rwf result ident rest s
          cmt h1 h2]
        obtain ⟨hs, hhs⟩ := ih ⟨s.ref,
          storeUpdate s.store cmt.hexsha (result cmt.hexsha),
          s.trace ++ blockFor cmt.hexsha⟩
        refine ⟨cmt.hexsha :: hs, ?_⟩
        rw [hhs]
        simp [blocksFor, List.append_assoc]

/-- The relocation events carry no evaluation. -/
theorem evalFree_relocate (loc : String) :
    evalFree (relocateEvents loc) = true := by
  unfold relocateEvents
  split
  · decide
  · decide

/-- The trace at the start of the loop carries no evaluation. -/
theorem evalFree_startState (dep loc : String) (store0 : Store) :
    evalFree (startState dep loc store0).trace = true := by
  simpa [startState, evalFree, List.all_cons, isEval]
    using evalFree_relocate loc

/-- The walk produces a well-bracketed trace in every outcome. -/
theorem walk_trace_no_overlap (model loc : String) (repo : Repo)
    (previous : String) (inp : HistoryInput) (result : String → Nat)
    (ref0 : Ref) (store0 : Store) :
    noOverlap (walk model loc repo previous inp result ref0 store0).1.trace
      = true := by
  obtain ⟨hs, hhs⟩ := runLoop_trace_shape model repo (loadHistoryIndex store0)
    inp.rewriteFlag result
    (if inp.commits.isEmpty then iterCommits repo else inp.commits)
    (startState inp.deployment loc store0)
  unfold walk
  split
  · split
    next s2 e heq =>
      rw [heq] at hhs
      show noOverlap s2.trace = true
      rw [hhs, noOverlap_append_left _ _
        (evalFree_startState inp.deployment loc store0)]
      exact noOverlap_blocks hs
    next s2 heq =>
      rw [heq] at hhs
      show noOverlap (s2.trace ++ _) = true
      rw [hhs, List.append_assoc, noOverlap_append_left _ _
        (evalFree_startState inp.deployment loc store0)]
      exact noOverlap_blocks_append hs _ (by simp [evalFree, isEval])
  · rfl

/-- C9: in every invocation the trace is a sequence in which each child
process is spawned, performs the store write itself, and is joined by the
parent before any further event: evaluations of distinct commits never
overlap, and the parent never proceeds past a child that has not
terminated. -/
theorem runHistory_trace_no_overlap (inp : HistoryInput) (env : Env)
    (ref0 : Ref) (store0 : Store) :
    noOverlap (runHistory inp env ref0 store0).1.trace = true := by
  unfold runHistory
  cases inp.model with
  | none => rfl
  | some model =>
    cases inp.location with
    | none => rfl
    | some loc =>
      cases env.repo with
      | none => rfl
      | some repo =>
        cases activeBranch ref0 with
        | none => rfl
        | some previous =>
          exact walk_trace_no_overlap model loc repo previous inp env.result
            ref0 store0

/-- The loop only fails with identifier or tree-lookup errors, never with
a precondition error. -/
theorem runLoop_error_kind (model : String) (repo : Repo)
    (index : List String) (rwf : Bool) (result : String → Nat) :
    ∀ (L : List String) (s s2 : HistoryState) (e : HistoryError),
      runLoop model repo index rwf result L s = (s2, some e) →
      preWalkError (some e) = false := by
  intro L
  induction L with
  | nil =>
    intro s s2 e h
    exact absurd h (by simp [runLoop])
  | cons ident rest ih =>
    intro s s2 e h
    cases h1 : repo.resolve ident with
    | none =>
      rw [runLoop_cons_none model repo index rwf result ident rest s h1] at h
      have he := congrArg Prod.snd h
      simp only [] at he
      injection he with he2
      subst he2
      rfl
    | some cmt =>
      cases h2 : commitAction model index rwf cmt with
      | skippedUntouched =>
        rw [runLoop_cons_untouched model repo index rwf result ident rest s
          cmt h1 h2] at h
        exact ih s s2 e h
      | skippedExisting =>
        rw [runLoop_cons_existing model repo index rwf result ident rest s
          cmt h1 h2] at h
        exact ih s s2 e h
      | missingBlob =>
        rw [runLoop_cons_missing model repo index rwf result ident rest s
          cmt h1 h2] at h
        have he := congrArg Prod.snd h
        simp only [] at he
        injection he with he2
        subst he2
        rfl
      | evaluated =>
        rw [runLoop_cons_evaluated model repo index rwf result ident rest s
          cmt h1 h2] at h
        exact ih _ s2 e h

/-- The walk fails before any checkout when the deployment branch is
absent. -/
theorem walk_dep_false (model loc : String) (repo : Repo)
    (previous : String) (inp : HistoryInput) (result : String → Nat)
    (ref0 : Ref) (store0 : Store)
    (h : repo.branches.contains inp.deployment = false) :
    walk model loc repo previous inp result ref0 store0
      = (⟨ref0, store0, []⟩, some .missingDeploymentBranch) := by
  unfold walk
  rw [h]
  rfl

/-- A loop failure propagates out of the walk. -/
theorem walk_loop_some (model loc : String) (repo : Repo)
    (previous : String) (inp : HistoryInput) (result : String → Nat)
    (ref0 : Ref) (store0 : Store) (s2 : HistoryState) (e : HistoryError)
    (hdep : repo.branches.contains inp.deployment = true)
    (hloop : runLoop model repo (loadHistoryIndex store0) inp.rewriteFlag
        result
        (if inp.commits.isEmpty then iterCommits repo else inp.commits)
        (startState inp.deployment loc store0) = (s2, some e)) :
    walk model loc repo previous inp result ref0 store0 = (s2, some e) := by
  unfold walk
  rw [hdep, hloop]
  rfl

/-- A successful loop ends the walk with publish and restore. -/
theorem walk_loop_none (model loc : String) (repo : Repo)
    (previous : String) (inp : HistoryInput) (result : String → Nat)
    (ref0 : Ref) (store0 : Store) (s2 : HistoryState)
    (hdep : repo.branches.contains inp.deployment = true)
    (hloop : runLoop model repo (loadHistoryIndex store0) inp.rewriteFlag
        result
        (if inp.commits.isEmpty then iterCommits repo else inp.commits)
        (startState inp.deployment loc store0) = (s2, none)) :
    walk model loc repo previous inp result ref0 store0
      = (⟨.branch previous, s2.store,
          s2.trace ++ [Event.checkout (.branch inp.deployment),
                       Event.publish,
                       Event.checkout (.branch previous)]⟩, none) := by
  unfold walk
  rw [hdep, hloop]
  rfl

/-- An active branch pins the ref down. -/
theorem activeBranch_eq_some (r : Ref) (b : String)
    (h : activeBranch r = some b) : r = .branch b := by
  cases r with
  | branch b2 =>
    injection h with h
    rw [h]
  | detached c => exact absurd h (by simp [activeBranch])

/-- Every invocation ends in one of three ways: a precondition failure
that returns the state untouched, a mid-walk failure, or a completed walk
that restores the previous branch after publishing. -/
theorem runHistory_cases (inp : HistoryInput) (env : Env) (ref0 : Ref)
    (store0 : Store) :
    (∃ err, runHistory inp env ref0 store0 = (⟨ref0, store0, []⟩, some err) ∧
      preWalkError (some err) = true) ∨
    (∃ s2 e, runHistory inp env ref0 store0 = (s2, some e) ∧
      preWalkError (some e) = false) ∨
    (∃ m loc repo previous s2,
      inp.model = some m ∧ inp.location = some loc ∧ env.repo = some repo ∧
      activeBranch ref0 = some previous ∧
      repo.branches.contains inp.deployment = true ∧
      runLoop m repo (loadHistoryIndex store0) inp.rewriteFlag env.result
        (if inp.commits.isEmpty then iterCommits repo else inp.commits)
        (startState inp.deployment loc store0) = (s2, none) ∧
      runHistory inp env ref0 store0
        = (⟨.branch previous, s2.store,
            s2.trace ++ [Event.checkout (.branch inp.deployment),
                         Event.publish,
                         Event.checkout (.branch previous)]⟩, none)) := by
  cases hm : inp.model with
  | none => exact Or.inl ⟨.badParameter "model", by simp [runHistory, hm], rfl⟩
  | some m =>
    cases hl : inp.location with
    | none =>
      exact Or.inl ⟨.badParameter "location", by simp [runHistory, hm, hl],
        rfl⟩
    | some loc =>
      cases hre : env.repo with
      | none =>
        exact Or.inl ⟨.invalidGitRepository,
          by simp [runHistory, hm, hl, hre], rfl⟩
      | some repo =>
        cases hab : activeBranch ref0 with
        | none =>
          exact Or.inl ⟨.typeError, by simp [runHistory, hm, hl, hre, hab],
            rfl⟩
        | some previous =>
          have hw : runHistory inp env ref0 store0
              = walk m loc repo previous inp env.result ref0 store0 := by
            simp [runHistory, hm, hl, hre, hab]
          cases hdep : repo.branches.contains inp.deployment with
          | false =>
            exact Or.inl ⟨.missingDeploymentBranch,
              by rw [hw, walk_dep_false m loc repo previous inp env.result
                ref0 store0 hdep], rfl⟩
          | true =>
            cases hloop : runLoop m repo (loadHistoryIndex store0)
                inp.rewriteFlag env.result
                (if inp.commits.isEmpty then iterCommits repo
                 else inp.commits)
                (startState inp.deployment loc store0) with
            | mk s2 e2 =>
              cases e2 with
              | some e =>
                refine Or.inr (Or.inl ⟨s2, e, ?_, ?_⟩)
                · rw [hw, walk_loop_some m loc repo previous inp env.result
                    ref0 store0 s2 e hdep hloop]
                · exact runLoop_error_kind m repo (loadHistoryIndex store0)
                    inp.rewriteFlag env.result _ _ s2 e hloop
              | none =>
                refine Or.inr (Or.inr
                  ⟨m, loc, repo, previous, s2, rfl, rfl, rfl, rfl, hdep,
                   hloop, ?_⟩)
                rw [hw, walk_loop_none m loc repo previous inp env.result
                  ref0 store0 s2 hdep hloop]

/-- A successful loop lets the full command be reassembled. -/
theorem runHistory_build (inp : HistoryInput) (env : Env) (store0 : Store)
    (m loc : String) (repo : Repo) (previous : String) (s2 : HistoryState)
    (hm : inp.model = some m) (hl : inp.location = some loc)
    (hre : env.repo = some repo)
    (hdep : repo.branches.contains inp.deployment = true)
    (hloop : runLoop m repo (loadHistoryIndex store0) inp.rewriteFlag
        env.result
        (if inp.commits.isEmpty then iterCommits repo else inp.commits)
        (startState inp.deployment loc store0) = (s2, none)) :
    runHistory inp env (Ref.branch previous) store0
      = (⟨.branch previous, s2.store,
          s2.trace ++ [Event.checkout (.branch inp.deployment),
                       Event.publish,
                       Event.checkout (.branch previous)]⟩, none) := by
  have hw : runHistory inp env (Ref.branch previous) store0
      = walk m loc repo previous inp env.result (Ref.branch previous)
          store0 := by
    simp [runHistory, hm, hl, hre, activeBranch]
  rw [hw, walk_loop_none m loc repo previous inp env.result
    (Ref.branch previous) store0 s2 hdep hloop]

/-- C2 (amended): whenever the command terminates normally or with a
precondition failure raised before the first checkout, the working tree
ends on the exact ref it started on; only a failure raised inside the
walk (an unresolvable identifier or a model file missing from an
evaluated commit's tree) can leave it elsewhere. -/
theorem runHistory_restores_ref (inp : HistoryInput) (env : Env)
    (ref0 : Ref) (store0 : Store)
    (h : (runHistory inp env ref0 store0).2 = none ∨
      preWalkError (runHistory inp env ref0 store0).2 = true) :
    (runHistory inp env ref0 store0).1.ref = ref0 := by
  rcases runHistory_cases inp env ref0 store0 with
    ⟨err, heq, _⟩ | ⟨s2, e, heq, hpre⟩ |
    ⟨m, loc, repo, previous, s2, hm, hl, hre, hab, hdep, hloop, heq⟩
  · rw [heq]
  · rw [heq] at h
    have h2 : preWalkError (some e) = true := by simpa using h
    rw [hpre] at h2
    exact absurd h2 (by simp)
  · have href : ref0 = Ref.branch previous :=
      activeBranch_eq_some ref0 previous hab
    rw [heq, href]

/-- Witness for C2 at a completed walk over the one-commit repository. -/
theorem runHistory_restores_ref_app :
    (runHistory demoInput demoEnv (Ref.branch "master") []).1.ref
      = Ref.branch "master" :=
  runHistory_restores_ref demoInput demoEnv (Ref.branch "master") []
    (Or.inl (by decide))

/-- C2 counterexample: a commit that deletes the model makes the command
abort mid-walk, leaving the tree on the deployment branch rather than the
ref it started on. -/
theorem runHistory_midwalk_error_ref :
    (runHistory demoInput gapEnv (Ref.branch "master") []).1.ref
        = Ref.branch "gh-pages" ∧
    Ref.branch "gh-pages" ≠ Ref.branch "master" := by
  decide

/-- The loop never removes a key from the store. -/
theorem runLoop_keys_mono (model : String) (repo : Repo)
    (index : List String) (rwf : Bool) (result : String → Nat) :
    ∀ (L : List String) (s : HistoryState) (k : String),
      k ∈ storeKeys s.store →
      k ∈ storeKeys (runLoop model repo index rwf result L s).1.store := by
  intro L
  induction L with
  | nil =>
    intro s k hk
    simpa [runLoop] using hk
  | cons ident rest ih =>
    intro s k hk
    cases h1 : repo.resolve ident with
    | none =>
      rw [runLoop_cons_none model repo index rwf result ident rest s h1]
      simpa using hk
    | some cmt =>
      cases h2 : commitAction model index rwf cmt with
      | skippedUntouched =>
        rw [runLoop_cons_untouched model repo index rwf result ident rest s
          cmt h1 h2]
        exact ih s k hk
      | skippedExisting =>
        rw [runLoop_cons_existing model repo index rwf result ident rest s
          cmt h1 h2]
        exact ih s k hk
      | missingBlob =>
        rw [runLoop_cons_missing model repo index rwf result ident rest s
          cmt h1 h2]
        simpa using hk
      | evaluated =>
        rw [runLoop_cons_evaluated model repo index rwf result ident rest s
          cmt h1 h2]
        refine ih _ k ?_
        exact List.mem_cons_of_mem _ hk

/-- A loop that finishes resolved every identifier it visited. -/
theorem runLoop_resolves (model : String) (repo : Repo)
    (index : List String) (rwf : Bool) (result : String → Nat) :
    ∀ (L : List String) (s s2 : HistoryState),
      runLoop model repo index rwf result L s = (s2, none) →
      ∀ ident ∈ L, ∃ cmt, repo.resolve ident = some cmt := by
  intro L
  induction L with
  | nil =>
    intro s s2 _ ident hid
    exact absurd hid (List.not_mem_nil ident)
  | cons identH rest ih =>
    intro s s2 h ident hid
    cases h1 : repo.resolve identH with
    | none =>
      rw [runLoop_cons_none model repo index rwf result identH rest s h1]
        at h
      exact absurd h (by simp)
    | some cmt =>
      rcases List.mem_cons.mp hid with rfl | hid2
      · exact ⟨cmt, h1⟩
      · cases h2 : commitAction model index rwf cmt with
        | skippedUntouched =>
          rw [runLoop_cons_untouched model repo index rwf result identH rest
            s cmt h1 h2] at h
          exact ih s s2 h ident hid2
        | skippedExisting =>
          rw [runLoop_cons_existing model repo index rwf result identH rest
            s cmt h1 h2] at h
          exact ih s s2 h ident hid2
        | missingBlob =>
          rw [runLoop_cons_missing model repo index rwf result identH rest s
            cmt h1 h2] at h
          exact absurd h (by simp)
        | evaluated =>
          rw [runLoop_cons_evaluated model repo index rwf result identH rest
            s cmt h1 h2] at h
          exact ih _ s2 h ident hid2

/-- With rewriting off, a completed loop leaves a stored record for every
candidate commit that touched the model and had no prior record. -/
theorem runLoop_coverage (model : String) (repo : Repo)
    (index : List String) (result : String → Nat) :
    ∀ (L : List String) (s s2 : HistoryState),
      runLoop model repo index false result L s = (s2, none) →
      ∀ ident ∈ L, ∀ cmt : Commit, repo.resolve ident = some cmt →
        cmt.statsFiles.contains model = true →
        historyContains index cmt.hexsha = false →
        cmt.hexsha ∈ storeKeys s2.store := by
  intro L
  induction L with
  | nil =>
    intro s s2 _ ident hid
    exact absurd hid (List.not_mem_nil ident)
  | cons identH rest ih =>
    intro s s2 h ident hid cmt hres htouch hidx
    rcases List.mem_cons.mp hid with rfl | hid2
    · have h3 : (historyContains index cmt.hexsha && !false) = false := by
        rw [hidx]
        rfl
      cases h4 : cmt.treeFiles.contains model with
      | false =>
        rw [runLoop_cons_missing model repo index false result ident rest s
          cmt hres (commitAction_eq_missing model index false cmt htouch h3
            h4)] at h
        exact absurd h (by simp)
      | true =>
        rw [runLoop_cons_evaluated model repo index false result ident rest
          s cmt hres (commitAction_eq_evaluated model index false cmt htouch
            h3 h4)] at h
        have hk : cmt.hexsha ∈ storeKeys
            (storeUpdate s.store cmt.hexsha (result cmt.hexsha)) :=
          List.mem_cons_self _ _
        have hmono := runLoop_keys_mono model repo index false result rest
          ⟨s.ref, storeUpdate s.store cmt.hexsha (result cmt.hexsha),
           s.trace ++ blockFor cmt.hexsha⟩ cmt.hexsha hk
        rw [h] at hmono
        exact hmono
    · cases h1 : repo.resolve identH with
      | none =>
        rw [runLoop_cons_none model repo index false result identH rest s
          h1] at h
        exact absurd h (by simp)
      | some cmtH =>
        cases h2 : commitAction model index false cmtH with
        | skippedUntouched =>
          rw [runLoop_cons_untouched model repo index false result identH
            rest s cmtH h1 h2] at h
          exact ih s s2 h ident hid2 cmt hres htouch hidx
        | skippedExisting =>
          rw [runLoop_cons_existing model repo index false result identH
            rest s cmtH h1 h2] at h
          exact ih s s2 h ident hid2 cmt hres htouch hidx
        | missingBlob =>
          rw [runLoop_cons_missing model repo index false result identH rest
            s cmtH h1 h2] at h
          exact absurd h (by simp)
        | evaluated =>
          rw [runLoop_cons_evaluated model repo index false result identH
            rest s cmtH h1 h2] at h
          exact ih _ s2 h ident hid2 cmt hres htouch hidx

/-- With rewriting off, a loop over commits that all resolve and whose
model-touching members are all recorded already does nothing. -/
theorem runLoop_noop (model : String) (repo : Repo) (index : List String)
    (result : String → Nat) :
    ∀ (L : List String) (s : HistoryState),
      (∀ ident ∈ L, ∃ cmt : Commit, repo.resolve ident = some cmt ∧
        (cmt.statsFiles.contains model = true →
         historyContains index cmt.hexsha = true)) →
      runLoop model repo index false result L s = (s, none) := by
  intro L
  induction L with
  | nil => intro s _; rfl
  | cons ident rest ih =>
    intro s hall
    obtain ⟨cmt, hres, himpl⟩ := hall ident (List.mem_cons_self ident rest)
    have hrest : ∀ i ∈ rest, ∃ cmt2 : Commit, repo.resolve i = some cmt2 ∧
        (cmt2.statsFiles.contains model = true →
         historyContains index cmt2.hexsha = true) :=
      fun i hi => hall i (List.mem_cons_of_mem ident hi)
    cases htouch : cmt.statsFiles.contains model with
    | false =>
      rw [runLoop_cons_untouched model repo index false result ident rest s
        cmt hres (commitAction_eq_untouched model index false cmt htouch)]
      exact ih s hrest
    | true =>
      have h3 : (historyContains index cmt.hexsha && !false) = true := by
        rw [himpl htouch]
        rfl
      rw [runLoop_cons_existing model repo index false result ident rest s
        cmt hres (commitAction_eq_existing model index false cmt htouch h3)]
      exact ih s hrest

/-- C6: running the walk a second time with rewrite off, over the same
inputs and starting from the state a successful first run left behind,
changes nothing: the store is identical, no evaluation event (spawn,
store write, join) occurs, and the run completes normally — every commit
recorded by the first run is skipped because the history index already
contains it. -/
theorem runHistory_idempotent (inp : HistoryInput) (env : Env) (ref0 : Ref)
    (store0 : Store) (hrw : inp.rewriteFlag = false)
    (h1 : (runHistory inp env ref0 store0).2 = none) :
    (runHistory inp env (runHistory inp env ref0 store0).1.ref
        (runHistory inp env ref0 store0).1.store).1.store
      = (runHistory inp env ref0 store0).1.store ∧
    evalFree (runHistory inp env (runHistory inp env ref0 store0).1.ref
        (runHistory inp env ref0 store0).1.store).1.trace = true ∧
    (runHistory inp env (runHistory inp env ref0 store0).1.ref
        (runHistory inp env ref0 store0).1.store).2 = none := by
  rcases runHistory_cases inp env ref0 store0 with
    ⟨err, heq, _⟩ | ⟨s2, e, heq, _⟩ |
    ⟨m, loc, repo, previous, s2, hm, hl, hre, hab, hdep, hloop, heq⟩
  · rw [heq] at h1
    exact absurd h1 (by simp)
  · rw [heq] at h1
    exact absurd h1 (by simp)
  · rw [hrw] at hloop
    have href : (runHistory inp env ref0 store0).1.ref
        = Ref.branch previous := by
      rw [heq]
    have hstore : (runHistory inp env ref0 store0).1.store = s2.store := by
      rw [heq]
    have hresolves := runLoop_resolves m repo (loadHistoryIndex store0)
      false env.result _ _ _ hloop
    have hcover := runLoop_coverage m repo (loadHistoryIndex store0)
      env.result _ _ _ hloop
    have hall : ∀ ident ∈
        (if inp.commits.isEmpty then iterCommits repo else inp.commits),
        ∃ cmt : Commit, repo.resolve ident = some cmt ∧
          (cmt.statsFiles.contains m = true →
           historyContains (loadHistoryIndex s2.store) cmt.hexsha
             = true) := by
      intro ident hid
      obtain ⟨cmt, hres⟩ := hresolves ident hid
      refine ⟨cmt, hres, ?_⟩
      intro htouch
      rw [historyContains_iff]
      cases hidx : historyContains (loadHistoryIndex store0) cmt.hexsha with
      | true =>
        have hmem : cmt.hexsha ∈ loadHistoryIndex store0 :=
          (historyContains_iff _ _).mp hidx
        have hmono := runLoop_keys_mono m repo (loadHistoryIndex store0)
          false env.result
          (if inp.commits.isEmpty then iterCommits repo else inp.commits)
          (startState inp.deployment loc store0) cmt.hexsha hmem
        rw [hloop] at hmono
        exact hmono
      | false =>
        exact hcover ident hid cmt hres htouch hidx
    have hloop2 := runLoop_noop m repo (loadHistoryIndex s2.store)
      env.result
      (if inp.commits.isEmpty then iterCommits repo else inp.commits)
      (startState inp.deployment loc s2.store) hall
    have hloop2m : runLoop m repo (loadHistoryIndex s2.store)
        inp.rewriteFlag env.result
        (if inp.commits.isEmpty then iterCommits repo else inp.commits)
        (startState inp.deployment loc s2.store)
        = (startState inp.deployment loc s2.store, none) := by
      rw [hrw]
      exact hloop2
    have hrun2 := runHistory_build inp env s2.store m loc repo previous
      (startState inp.deployment loc s2.store) hm hl hre hdep hloop2m
    rw [href, hstore, hrun2]
    refine ⟨rfl, ?_, rfl⟩
    show evalFree ((startState inp.deployment loc s2.store).trace
      ++ [Event.checkout (Ref.branch inp.deployment), Event.publish,
          Event.checkout (Ref.branch previous)]) = true
    simp only [evalFree, List.all_append, Bool.and_eq_true]
    constructor
    · exact evalFree_startState inp.deployment loc s2.store
    · simp [isEval]

/-- Witness for C6 on the one-commit repository: the second run keeps the
store of the first run, performs no evaluation, and succeeds. -/
theorem runHistory_idempotent_app :
    (runHistory demoInput demoEnv
        (runHistory demoInput demoEnv (Ref.branch "master") []).1.ref
        (runHistory demoInput demoEnv (Ref.branch "master") []).1.store
      ).1.store
      = (runHistory demoInput demoEnv (Ref.branch "master") []).1.store ∧
    evalFree (runHistory demoInput demoEnv
        (runHistory demoInput demoEnv (Ref.branch "master") []).1.ref
        (runHistory demoInput demoEnv (Ref.branch "master") []).1.store
      ).1.trace = true ∧
    (runHistory demoInput demoEnv
        (runHistory demoInput demoEnv (Ref.branch "master") []).1.ref
        (runHistory demoInput demoEnv (Ref.branch "master") []).1.store
      ).2 = none :=
  runHistory_idempotent demoInput demoEnv (Ref.branch "master") [] rfl
    (by decide)

/-- C8: a short identifier that resolves does so to the same commit as
the full-length hash, and the loop behaves identically on the short and
the full identifier, so the result record lands under the same key.  The
hypothesis states that hashes in the log are full length: none is a
proper initial segment of another. -/
theorem resolve_short_id_same_key (repo : Repo) (p : String) (cmt : Commit)
    (hfull : ∀ c1 ∈ repo.commits, ∀ c2 ∈ repo.commits,
      chPre c2.hexsha.data c1.hexsha.data = true → c1 = c2)
    (hres : repo.resolve p = some cmt) :
    repo.resolve cmt.hexsha = some cmt ∧
    ∀ (model : String) (index : List String) (rwf : Bool)
      (result : String → Nat) (rest : List String) (s : HistoryState),
      runLoop model repo index rwf result (p :: rest) s
        = runLoop model repo index rwf result (cmt.hexsha :: rest) s := by
  have hfilter := resolve_some_filter repo p cmt hres
  have hcm : cmt ∈ repo.commits ∧ chPre p.data cmt.hexsha.data = true := by
    have hmem : cmt ∈ repo.commits.filter
        (fun c => chPre p.data c.hexsha.data) := by
      rw [hfilter]
      exact List.mem_cons_self _ _
    exact List.mem_filter.mp hmem
  have hpoint : ∀ c ∈ repo.commits,
      chPre cmt.hexsha.data c.hexsha.data
        = chPre p.data c.hexsha.data := by
    intro c hc
    cases hq : chPre p.data c.hexsha.data with
    | true =>
      have hcf : c ∈ repo.commits.filter
          (fun x => chPre p.data x.hexsha.data) :=
        List.mem_filter.mpr ⟨hc, hq⟩
      rw [hfilter] at hcf
      have hceq : c = cmt := by simpa using hcf
      rw [hceq]
      exact chPre_refl _
    | false =>
      cases hl2 : chPre cmt.hexsha.data c.hexsha.data with
      | false => rfl
      | true =>
        have hceq : c = cmt := hfull c hc cmt hcm.1 hl2
        rw [hceq] at hq
        exact absurd hcm.2 (by simp [hq])
  have hfilter2 : repo.commits.filter
      (fun c => chPre cmt.hexsha.data c.hexsha.data) = [cmt] := by
    rw [List.filter_congr hpoint]
    exact hfilter
  have hres2 : repo.resolve cmt.hexsha = some cmt :=
    resolve_of_filter repo cmt.hexsha cmt hfilter2
  refine ⟨hres2, ?_⟩
  intro model index rwf result rest s
  cases h2 : commitAction model index rwf cmt with
  | skippedUntouched =>
    rw [runLoop_cons_untouched model repo index rwf result p rest s cmt
      hres h2,
      runLoop_cons_untouched model repo index rwf result cmt.hexsha rest s
      cmt hres2 h2]
  | skippedExisting =>
    rw [runLoop_cons_existing model repo index rwf result p rest s cmt
      hres h2,
      runLoop_cons_existing model repo index rwf result cmt.hexsha rest s
      cmt hres2 h2]
  | missingBlob =>
    rw [runLoop_cons_missing model repo index rwf result p rest s cmt
      hres h2,
      runLoop_cons_missing model repo index rwf result cmt.hexsha rest s
      cmt hres2 h2]
  | evaluated =>
    rw [runLoop_cons_evaluated model repo index rwf result p rest s cmt
      hres h2,
      runLoop_cons_evaluated model repo index rwf result cmt.hexsha rest s
      cmt hres2 h2]

/-- Witness for C8: the shortened identifier behaves like the full hash
on the two-commit repository. -/
theorem resolve_short_id_same_key_app :
    twinRepo.resolve "aaaa1111" = some demoCommit ∧
    runLoop "model.xml" twinRepo [] false (fun _ => 7) ["aa"]
        ⟨Ref.branch "gh-pages", [], []⟩
      = runLoop "model.xml" twinRepo [] false (fun _ => 7) ["aaaa1111"]
        ⟨Ref.branch "gh-pages", [], []⟩ := by
  obtain ⟨h1, h2⟩ := resolve_short_id_same_key twinRepo "aa" demoCommit
    (by decide) (by decide)
  exact ⟨h1, h2 "model.xml" [] false (fun _ => 7) []
    ⟨Ref.branch "gh-pages", [], []⟩⟩
